import Mathlib

/-!
Verification of the camkes-tool runtime templates:
the portable-pointer codec and dataport region of
`seL4SharedData-to.template.c`, the call-descriptor argument list of
`call-unmarshal-inputs.c`, and the capability slot directory of
`component.all_tcb_caps.h`, shallowly embedded in Lean.
-/

/-- The page size `PAGE_SIZE_4K` used by the dataport symbol declaration. -/
def PAGE_SIZE_4K : Nat := 4096

/-- Modelled from the spec: the `ROUND_UP_UNSAFE` macro used to size the
dataport symbol is provided by the external seL4 utility library and is not
part of the repository sources; the spec describes it as
`round_up(declared_type_size, PAGE_SIZE)`, i.e. rounding up to the next
multiple of the page size. -/
def round_up (n b : Nat) : Nat := ((n + b - 1) / b) * b

/-- A dataport region as instantiated by `seL4SharedData-to.template.c`:
a connection identifier (the template variable `id`), the base address of
the dataport symbol (the address stored in the typed interface pointer),
and the declared size `sizeof(type)` of the interface type. -/
structure Region where
  id : Nat
  base : Nat
  size : Nat
deriving DecidableEq, Repr

/-- The byte capacity of the backing block: the dataport symbol is declared
as `char content[ROUND_UP_UNSAFE(sizeof(type), PAGE_SIZE_4K)]`. -/
def Region.capacity (R : Region) : Nat := round_up R.size PAGE_SIZE_4K

/-- The `dataport_ptr_t` struct: a region identifier and a byte offset. -/
structure dataport_ptr_t where
  id : Nat
  offset : Nat
deriving DecidableEq, Repr

/-- `_wrap_ptr(dataport_ptr_t *p, void *ptr)` from
`seL4SharedData-to.template.c`: if `ptr` is below the interface pointer or
at/after interface pointer plus `sizeof(type)`, return `-1` (before any
write to `*p`); otherwise store the region id and the offset into `*p` and
return `0`.  The result is the returned `int` paired with the value of `*p`
after the call. -/
def wrap_ptr (R : Region) (p : dataport_ptr_t) (ptr : Nat) : Int × dataport_ptr_t :=
  if ptr < R.base ∨ R.base + R.size ≤ ptr then
    (-1, p)
  else
    (0, { id := R.id, offset := ptr - R.base })

/-- `_unwrap_ptr(dataport_ptr_t *p)` from `seL4SharedData-to.template.c`:
if `p->id` equals the region's own id, return the interface base address
plus `p->offset`; otherwise return `NULL` (modelled as `none`). -/
def unwrap_ptr (R : Region) (p : dataport_ptr_t) : Option Nat :=
  if p.id = R.id then some (R.base + p.offset) else none

/-- Rounding up never decreases the value (for a positive block size). -/
theorem le_round_up (n b : Nat) (hb : 0 < b) : n ≤ round_up n b := by
  unfold round_up
  rcases Nat.eq_zero_or_pos n with hn | hn
  · simp [hn]
  · have hmod := Nat.mod_lt (n + b - 1) hb
    have hdm := Nat.div_add_mod (n + b - 1) b
    have hcomm : (n + b - 1) / b * b = b * ((n + b - 1) / b) := Nat.mul_comm _ _
    omega

/-- The result of rounding up is a multiple of the block size. -/
theorem round_up_dvd (n b : Nat) : b ∣ round_up n b := by
  unfold round_up
  exact ⟨(n + b - 1) / b, Nat.mul_comm _ _⟩

/-- Rounding up yields the least multiple of `b` that is at least `n`. -/
theorem round_up_least (n b m : Nat) (hb : 0 < b) (hm : b ∣ m) (hnm : n ≤ m) :
    round_up n b ≤ m := by
  unfold round_up
  rcases hm with ⟨k, rfl⟩
  rcases Nat.eq_zero_or_pos n with hn | hn
  · have hlt : (n + b - 1) / b = 0 := Nat.div_eq_of_lt (by omega)
    simp [hlt]
  · have hdiv : (n + b - 1) / b ≤ k := by
      have hmul : (n + b - 1) < (k + 1) * b := by
        have hh : b * k + b = (k + 1) * b := by ring
        omega
      have := (Nat.div_lt_iff_lt_mul hb).mpr hmul
      omega
    calc (n + b - 1) / b * b ≤ k * b := Nat.mul_le_mul_right b hdiv
    _ = b * k := Nat.mul_comm k b

/-- The declared size never exceeds the page-rounded capacity. -/
theorem size_le_capacity (R : Region) : R.size ≤ R.capacity :=
  le_round_up R.size PAGE_SIZE_4K (by decide)

/-- A method parameter as consumed by `call-unmarshal-inputs.c`: a name and
the `array` flag of the interface metadata. -/
structure Parameter where
  name : String
  array : Bool
deriving DecidableEq, Repr

/-- The per-parameter argument slots generated by the loop of
`call-unmarshal-inputs.c`: for an array parameter, the element-count
pointer followed by the element-buffer pointer; for a scalar parameter,
just the value pointer. -/
def paramArgs : List Parameter → List String
  | [] => []
  | p :: rest =>
      (if p.array then [p.name ++ "_sz_ptr"] else []) ++
        (p.name ++ "_ptr") :: paramArgs rest

/-- The full argument list of the generated unmarshal call: the message
byte-length variable first, then the per-parameter slots in declared
order. -/
def unmarshalInputsCall (sz : String) (input_parameters : List Parameter) :
    List String :=
  sz :: paramArgs input_parameters

/-- The capability-space view consumed by `component.all_tcb_caps.h`: the
collection of TCB capability slot indices, and the CNode slot table mapping
each slot index to the name of the capability referent stored there
(`none` for an empty slot). -/
structure CapSpace where
  all_tcb_caps_slots : List Nat
  slots : List (Nat × Option String)
deriving DecidableEq, Repr

/-- `ALL_TCB_CAPS_MIN`: the least TCB capability slot index. -/
def ALL_TCB_CAPS_MIN (cs : CapSpace) : Nat :=
  cs.all_tcb_caps_slots.min?.getD 0

/-- `ALL_TCB_CAPS_MAX`: the greatest TCB capability slot index. -/
def ALL_TCB_CAPS_MAX (cs : CapSpace) : Nat :=
  cs.all_tcb_caps_slots.max?.getD 0

/-- `ALL_TCB_CAPS_NUM`, defined in the header as `MAX - MIN + 1`. -/
def ALL_TCB_CAPS_NUM (cs : CapSpace) : Nat :=
  ALL_TCB_CAPS_MAX cs - ALL_TCB_CAPS_MIN cs + 1

/-- The designated initializers emitted for the `cap_names` array: the loop
over `cap_space.cnode.slots.items()` emits `[idx] = "name"` exactly for the
populated slots, in table order. -/
def cap_inits (slots : List (Nat × Option String)) : List (Nat × String) :=
  slots.filterMap (fun e => e.2.map (fun n => (e.1, n)))

/-- The value of the C array `cap_names` at position `k`: the last
designated initializer for index `k` wins, and a position no initializer
designates is `NULL` (`none`), since a static array is zero-filled. -/
def cap_names_at (slots : List (Nat × Option String)) (k : Nat) :
    Option String :=
  (((cap_inits slots).filter (fun e => e.1 == k)).getLast?).map (fun e => e.2)

/-- The concrete slot table of the directory example: slot range 2 to 5
with slots 3 and 5 populated. -/
def exampleSlots : List (Nat × Option String) :=
  [(2, none), (3, some "tcb_client"), (4, none), (5, some "tcb_server")]

/-- The concrete capability space of the directory example. -/
def exampleCapSpace : CapSpace :=
  { all_tcb_caps_slots := [2, 3, 4, 5], slots := exampleSlots }

/-- C1 counterexample: for the region with id 0, base 4096 and declared
size 1, the capacity is 4096, so offset 1 satisfies `0 <= o < capacity`,
yet `wrap_ptr` rejects `base + 1` with `-1` because the code bounds-checks
against `sizeof(type)`, not the page-rounded capacity. -/
theorem wrap_round_trip_capacity_cex :
    1 < Region.capacity { id := 0, base := 4096, size := 1 } ∧
    wrap_ptr { id := 0, base := 4096, size := 1 } { id := 0, offset := 0 }
        (4096 + 1) =
      (-1, { id := 0, offset := 0 }) := by
  constructor
  · decide
  · decide

/-- C1 (amended): for every region `R` and every offset `o` with
`0 <= o < R.size` (the declared type size, not the page-rounded capacity),
`wrap_ptr` on `R.base + o` succeeds with portable pointer
`{id := R.id, offset := o}`, and `unwrap_ptr` of that portable pointer
returns the original local pointer `R.base + o`. -/
theorem wrap_unwrap_round_trip (R : Region) (p : dataport_ptr_t) (o : Nat)
    (h : o < R.size) :
    wrap_ptr R p (R.base + o) = (0, { id := R.id, offset := o }) ∧
    unwrap_ptr R { id := R.id, offset := o } = some (R.base + o) := by
  constructor
  · unfold wrap_ptr
    rw [if_neg]
    · simp
    · push_neg
      omega
  · unfold unwrap_ptr
    simp

/-- Witness for the amended C1 at a concrete region and offset. -/
theorem wrap_unwrap_round_trip_witness :
    0 < 64 ∧
    wrap_ptr { id := 7, base := 4096, size := 64 } { id := 0, offset := 0 }
        (4096 + 0) =
      (0, { id := 7, offset := 0 }) ∧
    unwrap_ptr { id := 7, base := 4096, size := 64 } { id := 7, offset := 0 } =
      some (4096 + 0) :=
  ⟨by decide,
   (wrap_unwrap_round_trip { id := 7, base := 4096, size := 64 }
      { id := 0, offset := 0 } 0 (by decide)).1,
   (wrap_unwrap_round_trip { id := 7, base := 4096, size := 64 }
      { id := 0, offset := 0 } 0 (by decide)).2⟩

/-- C2: for every region `R` and every address `a` below `R.base` or at or
beyond `R.base + R.capacity`, `wrap_ptr` fails, returning `-1` and leaving
the output portable pointer untouched. -/
theorem wrap_bounds_rejection (R : Region) (p : dataport_ptr_t) (a : Nat)
    (h : a < R.base ∨ R.base + R.capacity ≤ a) :
    wrap_ptr R p a = (-1, p) := by
  have hs := size_le_capacity R
  unfold wrap_ptr
  rw [if_pos]
  rcases h with h | h
  · exact Or.inl h
  · exact Or.inr (by omega)

/-- Witness for C2 at a concrete region and out-of-range address. -/
theorem wrap_bounds_rejection_witness :
    ((4101 : Nat) < 4096 ∨
      4096 + Region.capacity { id := 0, base := 4096, size := 4097 } ≤ 12288) ∧
    wrap_ptr { id := 0, base := 4096, size := 4097 } { id := 9, offset := 9 }
        12288 =
      (-1, { id := 9, offset := 9 }) :=
  ⟨Or.inr (by decide),
   wrap_bounds_rejection { id := 0, base := 4096, size := 4097 }
     { id := 9, offset := 9 } 12288 (Or.inr (by decide))⟩

/-- C3: for two regions with distinct ids, unwrapping a portable pointer
stamped with the first region's id against the second region fails,
returning `NULL` (`none`), for every offset. -/
theorem unwrap_region_isolation (R1 R2 : Region) (o : Nat)
    (h : R1.id ≠ R2.id) :
    unwrap_ptr R2 { id := R1.id, offset := o } = none := by
  unfold unwrap_ptr
  simp [h]

/-- Witness for C3 at two concrete regions with distinct ids. -/
theorem unwrap_region_isolation_witness :
    (1 : Nat) ≠ 2 ∧
    unwrap_ptr { id := 2, base := 0, size := 4096 }
        { id := 1, offset := 12345 } =
      none :=
  ⟨by decide,
   unwrap_region_isolation { id := 1, base := 8192, size := 4096 }
     { id := 2, base := 0, size := 4096 } 12345 (by decide)⟩

/-- C9: `unwrap_ptr` validates only the region identifier, never the
offset: whenever the portable pointer's id equals the region's own id, it
returns `R.base + offset` for every offset value, and in particular an
offset at or beyond the capacity yields an address at or beyond
`R.base + R.capacity`, outside the region, rather than a failure. -/
theorem unwrap_ignores_offset (R : Region) (p : dataport_ptr_t)
    (h : p.id = R.id) :
    unwrap_ptr R p = some (R.base + p.offset) ∧
    (R.capacity ≤ p.offset →
      unwrap_ptr R p = some (R.base + p.offset) ∧
      R.base + R.capacity ≤ R.base + p.offset) := by
  have hu : unwrap_ptr R p = some (R.base + p.offset) := by
    unfold unwrap_ptr
    simp [h]
  exact ⟨hu, fun hcap => ⟨hu, by omega⟩⟩

/-- Witness for C9 at a concrete region and a far out-of-range offset. -/
theorem unwrap_ignores_offset_witness :
    (1 : Nat) = 1 ∧
    Region.capacity { id := 1, base := 4096, size := 8 } ≤ 999999 ∧
    unwrap_ptr { id := 1, base := 4096, size := 8 }
        { id := 1, offset := 999999 } =
      some (4096 + 999999) :=
  ⟨rfl, by decide,
   ((unwrap_ignores_offset { id := 1, base := 4096, size := 8 }
      { id := 1, offset := 999999 } rfl).2 (by decide)).1⟩

/-- C10: `wrap_ptr` failure atomicity: whenever the returned code is not
`0` (success), the output portable pointer is exactly the one passed in —
neither its id nor its offset field was written. -/
theorem wrap_failure_atomicity (R : Region) (p : dataport_ptr_t) (a : Nat)
    (h : (wrap_ptr R p a).1 ≠ 0) :
    (wrap_ptr R p a).2 = p := by
  unfold wrap_ptr at h ⊢
  by_cases hc : a < R.base ∨ R.base + R.size ≤ a
  · simp [hc]
  · simp [hc] at h

/-- Witness for C10 at a concrete rejected address. -/
theorem wrap_failure_atomicity_witness :
    (wrap_ptr { id := 0, base := 4096, size := 1 } { id := 5, offset := 7 }
        0).1 ≠ 0 ∧
    (wrap_ptr { id := 0, base := 4096, size := 1 } { id := 5, offset := 7 }
        0).2 =
      { id := 5, offset := 7 } :=
  ⟨by decide,
   wrap_failure_atomicity { id := 0, base := 4096, size := 1 }
     { id := 5, offset := 7 } 0 (by decide)⟩

/-- The number of slots the parameter loop emits: two per array parameter,
one per scalar parameter. -/
theorem paramArgs_length (ps : List Parameter) :
    (paramArgs ps).length =
      (ps.map (fun p => if p.array then 2 else 1)).sum := by
  induction ps with
  | nil => rfl
  | cons p rest ih =>
      by_cases h : p.array <;> simp [paramArgs, h, ih] <;> omega

/-- C4: the encoded call descriptor has the message byte-length in slot 0;
each parameter, in declared order, then contributes exactly two slots
(count pointer, then buffer pointer) if it is an array and exactly one slot
(value pointer) if it is scalar; and a method with parameters
scalar, array, scalar yields exactly 5 slots. -/
theorem call_descriptor_layout :
    (∀ (sz : String) (ps : List Parameter),
      (unmarshalInputsCall sz ps).head? = some sz) ∧
    (∀ (p : Parameter) (rest : List Parameter),
      paramArgs (p :: rest) =
        (if p.array then [p.name ++ "_sz_ptr", p.name ++ "_ptr"]
          else [p.name ++ "_ptr"]) ++ paramArgs rest) ∧
    (∀ (sz : String) (ps : List Parameter),
      (unmarshalInputsCall sz ps).length =
        1 + (ps.map (fun p => if p.array then 2 else 1)).sum) ∧
    (∀ (sz a b c : String),
      (unmarshalInputsCall sz
        [{ name := a, array := false }, { name := b, array := true },
          { name := c, array := false }]).length = 5) := by
  refine ⟨fun sz ps => rfl, fun p rest => ?_, fun sz ps => ?_, fun sz a b c => rfl⟩
  · by_cases h : p.array <;> simp [paramArgs, h]
  · simp [unmarshalInputsCall, paramArgs_length]
    omega

/-- C5: for a method with zero input parameters the generated call passes
only the message size: the descriptor is exactly one slot. -/
theorem empty_parameter_list (sz : String) :
    unmarshalInputsCall sz [] = [sz] := rfl

/-- C6: the capacity of the allocated region is the declared type size
rounded up to the page size: for every size of at least 1 byte it is the
least multiple of 4096 that is at least the size, and on the sizes
1, 4095, 4096, 4097, 8192 it takes the values
4096, 4096, 4096, 8192, 8192. -/
theorem page_rounding :
    (∀ (i b sz : Nat), 1 ≤ sz →
      sz ≤ Region.capacity { id := i, base := b, size := sz } ∧
      4096 ∣ Region.capacity { id := i, base := b, size := sz } ∧
      (∀ m, sz ≤ m → 4096 ∣ m →
        Region.capacity { id := i, base := b, size := sz } ≤ m)) ∧
    Region.capacity { id := 0, base := 0, size := 1 } = 4096 ∧
    Region.capacity { id := 0, base := 0, size := 4095 } = 4096 ∧
    Region.capacity { id := 0, base := 0, size := 4096 } = 4096 ∧
    Region.capacity { id := 0, base := 0, size := 4097 } = 8192 ∧
    Region.capacity { id := 0, base := 0, size := 8192 } = 8192 := by
  refine ⟨fun i b sz hsz => ⟨?_, ?_, fun m hm hd => ?_⟩, by decide, by decide,
    by decide, by decide, by decide⟩
  · exact le_round_up sz PAGE_SIZE_4K (by decide)
  · exact round_up_dvd sz PAGE_SIZE_4K
  · exact round_up_least sz PAGE_SIZE_4K m (by decide) hd hm

/-- Witness for C6: the general least-multiple characterisation applied at
size 1 and candidate multiple 4096. -/
theorem page_rounding_witness :
    (1 : Nat) ≤ 1 ∧ (1 : Nat) ≤ 4096 ∧ (4096 : Nat) ∣ 4096 ∧
    Region.capacity { id := 0, base := 0, size := 1 } ≤ 4096 :=
  ⟨le_refl 1, by decide, ⟨1, rfl⟩,
   (page_rounding.1 0 0 1 (le_refl 1)).2.2 4096 (by decide) ⟨1, rfl⟩⟩

/-- An entry appears in the emitted `cap_names` initializer list exactly
when the corresponding slot is populated with a capability of that name. -/
theorem mem_cap_inits (slots : List (Nat × Option String)) (k : Nat)
    (n : String) :
    (k, n) ∈ cap_inits slots ↔ (k, some n) ∈ slots := by
  induction slots with
  | nil => simp [cap_inits]
  | cons e rest ih =>
      rcases e with ⟨i, c⟩
      cases c with
      | none =>
          simp only [cap_inits, List.filterMap_cons] at ih ⊢
          simp [ih]
      | some m =>
          simp only [cap_inits, List.filterMap_cons] at ih ⊢
          simp [ih, Prod.ext_iff]

/-- No initializer designates an index absent from the slot table. -/
theorem cap_inits_filter_nil (slots : List (Nat × Option String)) (k : Nat)
    (hk : k ∉ slots.map Prod.fst) :
    (cap_inits slots).filter (fun e => e.1 == k) = [] := by
  rw [List.filter_eq_nil_iff]
  rintro ⟨i, n⟩ hmem
  have hslot : (i, some n) ∈ slots := (mem_cap_inits slots i n).mp hmem
  have hi : i ∈ slots.map Prod.fst := by
    have := List.mem_map_of_mem Prod.fst hslot
    simpa using this
  simp only [beq_iff_eq]
  intro h
  exact hk (h ▸ hi)

/-- With distinct slot indices, the initializers designating index `k`
reduce to the single entry for the populated slot `k`. -/
theorem cap_inits_filter_single (slots : List (Nat × Option String))
    (k : Nat) (n : String) (hnodup : (slots.map Prod.fst).Nodup)
    (hmem : (k, some n) ∈ slots) :
    (cap_inits slots).filter (fun e => e.1 == k) = [(k, n)] := by
  induction slots with
  | nil => cases hmem
  | cons e rest ih =>
      rcases e with ⟨i, c⟩
      rw [List.map_cons, List.nodup_cons] at hnodup
      rcases List.mem_cons.mp hmem with heq | hrest
      · have h1 : i = k := by
          have := congrArg Prod.fst heq
          simpa using this.symm
        have h2 : c = some n := by
          have := congrArg Prod.snd heq
          simpa using this.symm
        subst h1
        subst h2
        have hfil := cap_inits_filter_nil rest i hnodup.1
        have hstep : cap_inits ((i, some n) :: rest) = (i, n) :: cap_inits rest := by
          simp [cap_inits]
        rw [hstep, List.filter_cons_of_pos, hfil]
        simp
      · have hkmem : k ∈ rest.map Prod.fst := by
          have := List.mem_map_of_mem Prod.fst hrest
          simpa using this
        have hik : i ≠ k := fun h => hnodup.1 (h ▸ hkmem)
        have ih2 := ih hnodup.2 hrest
        cases c with
        | none =>
            have hstep : cap_inits ((i, none) :: rest) = cap_inits rest := by
              simp [cap_inits]
            rw [hstep]
            exact ih2
        | some m =>
            have hstep : cap_inits ((i, some m) :: rest) =
                (i, m) :: cap_inits rest := by
              simp [cap_inits]
            rw [hstep, List.filter_cons_of_neg, ih2]
            simp [hik]

/-- C7: the emitted directory records an entry exactly for each populated
slot, omitting empty slots; on the example range 2 to 5 with slots 3 and 5
populated it contains exactly the entries for indices 3 and 5 with their
recorded names, and `ALL_TCB_CAPS_NUM` is `5 - 2 + 1 = 4`. -/
theorem capability_directory_completeness :
    (∀ (slots : List (Nat × Option String)) (k : Nat) (n : String),
      (k, n) ∈ cap_inits slots ↔ (k, some n) ∈ slots) ∧
    cap_inits exampleSlots = [(3, "tcb_client"), (5, "tcb_server")] ∧
    ALL_TCB_CAPS_MIN exampleCapSpace = 2 ∧
    ALL_TCB_CAPS_MAX exampleCapSpace = 5 ∧
    ALL_TCB_CAPS_NUM exampleCapSpace = 4 :=
  ⟨mem_cap_inits, rfl, by decide, by decide, by decide⟩

/-- C8 counterexample: on the example table, slot 3 is populated and the
minimum slot index is 2, yet position `3 - 2 = 1` of `cap_names` is `NULL`:
the designated initializer `[idx] = name` stores the name at the absolute
index 3, not at the offset from the minimum. -/
theorem cap_names_offset_indexing_cex :
    ALL_TCB_CAPS_MIN exampleCapSpace = 2 ∧
    (3, some "tcb_client") ∈ exampleSlots ∧
    cap_names_at exampleSlots (3 - 2) = none ∧
    cap_names_at exampleSlots 3 = some "tcb_client" :=
  ⟨by decide, by decide, by decide, by decide⟩

/-- C8 (amended): the `cap_names` table is indexed by the absolute slot
index, not by the offset from the minimum: for every slot table with
distinct indices and every populated slot `k`, the owner name of slot `k`
is stored at table position `k`. -/
theorem cap_names_absolute_indexing (slots : List (Nat × Option String))
    (k : Nat) (n : String) (hnodup : (slots.map Prod.fst).Nodup)
    (hmem : (k, some n) ∈ slots) :
    cap_names_at slots k = some n := by
  unfold cap_names_at
  rw [cap_inits_filter_single slots k n hnodup hmem]
  rfl

/-- Witness for the amended C8 on the example table at slot 3. -/
theorem cap_names_absolute_indexing_witness :
    (exampleSlots.map Prod.fst).Nodup ∧
    (3, some "tcb_client") ∈ exampleSlots ∧
    cap_names_at exampleSlots 3 = some "tcb_client" :=
  ⟨by decide, by decide,
   cap_names_absolute_indexing exampleSlots 3 "tcb_client" (by decide)
     (by decide)⟩
